import Mathlib

/-!
Shallow embedding of the physfs-cpp buffered stream adapter
(`src/include/physfs.hpp`): the `fbuf` streambuf subclass bridging a
PhysicsFS file handle to the C++ stream interface, and the
`base_fstream` open/close lifecycle.

Bytes are modelled as `Nat` values; the C++ `char` store and
`unsigned char` read-back are modelled by reduction mod 256 at the
points where the source casts.  `int_type` results are `Int`, with
`traits_type::eof()` modelled as `-1`.
-/

namespace PhysFSpp

/-- Model of an open `PHYSFS_File` handle: the file's byte contents, the
handle's absolute position, and a flag modelling an external device on
which `PHYSFS_writeBytes` fails (returns 0, writing nothing).  The
underlying PhysicsFS library is an external collaborator; this models
its documented handle semantics. -/
structure PhysFile where
  data : List Nat
  pos : Nat
  failWrites : Bool
deriving Repr, DecidableEq

/-- Model of `PHYSFS_eof`: nonzero when the handle position has reached
the end of the file. -/
def PHYSFS_eof (f : PhysFile) : Bool := f.data.length ≤ f.pos

/-- Model of `PHYSFS_tell`: the handle's absolute position. -/
def PHYSFS_tell (f : PhysFile) : Int := Int.ofNat f.pos

/-- Model of `PHYSFS_fileLength`. -/
def PHYSFS_fileLength (f : PhysFile) : Int := Int.ofNat f.data.length

/-- Model of `PHYSFS_seek`: moves the handle to the given absolute
position (a negative request is clamped; the library would report an
error there, which callers in this code base ignore). -/
def PHYSFS_seek (f : PhysFile) (p : Int) : PhysFile := { f with pos := p.toNat }

/-- Model of `PHYSFS_readBytes`: reads up to `n` bytes from the current
position, returning the bytes read, their count, and the advanced
handle. -/
def PHYSFS_readBytes (f : PhysFile) (n : Nat) : List Nat × Int × PhysFile :=
  ((f.data.drop f.pos).take n,
   Int.ofNat ((f.data.drop f.pos).take n).length,
   { f with pos := f.pos + ((f.data.drop f.pos).take n).length })

/-- Model of `PHYSFS_writeBytes`: on a healthy device writes all of `bs`
at the current position (overwriting, zero-padding any gap, extending
the file) and advances; on a failing device writes nothing and
returns 0. -/
def PHYSFS_writeBytes (f : PhysFile) (bs : List Nat) : Int × PhysFile :=
  if f.failWrites then (0, f)
  else
    (Int.ofNat bs.length,
     { f with
        data := f.data.take f.pos ++ List.replicate (f.pos - f.data.length) 0
                  ++ bs ++ f.data.drop (f.pos + bs.length),
        pos := f.pos + bs.length })

/-- The buffer-pointer state of the `fbuf` streambuf: the byte buffer
and the six `std::streambuf` pointers (get area `eback ≤ gptr ≤ egptr`,
put area `pbase ≤ pptr ≤ epptr`) as indices into the buffer. -/
structure fbuf where
  bufferSize : Nat
  buffer : List Nat
  eback : Nat
  gptr : Nat
  egptr : Nat
  pbase : Nat
  pptr : Nat
  epptr : Nat
deriving Repr, DecidableEq

/-- `std::streambuf::setg`. -/
def setg (st : fbuf) (eb g eg : Nat) : fbuf :=
  { st with eback := eb, gptr := g, egptr := eg }

/-- `std::streambuf::setp` (sets `pptr = pbase`). -/
def setp (st : fbuf) (pb ep : Nat) : fbuf :=
  { st with pbase := pb, pptr := pb, epptr := ep }

/-- The `fbuf(file, bufferSize)` constructor: get area empty at the
buffer's end (`setg(end, end, end)`), put area the whole buffer
(`setp(buffer, end)`). -/
def fbufInit (bufferSize : Nat) : fbuf :=
  { bufferSize := bufferSize
    buffer := List.replicate bufferSize 0
    eback := bufferSize, gptr := bufferSize, egptr := bufferSize
    pbase := 0, pptr := 0, epptr := bufferSize }

/-- `traits_type::eof()`. -/
def EOF : Int := -1

/-- `fbuf::underflow`: if the handle is at end-of-file return the
end-of-stream marker; otherwise read up to `bufferSize` bytes at the
current handle position, signal end-of-stream when fewer than one byte
arrives, else make `[0, bytesRead)` the get area and return the first
byte as an unsigned byte value without consuming it. -/
def underflow (st : fbuf) (f : PhysFile) : Int × fbuf × PhysFile :=
  if PHYSFS_eof f then (EOF, st, f)
  else
    match PHYSFS_readBytes f st.bufferSize with
    | (bs, bytesRead, f') =>
      if bytesRead < 1 then (EOF, st, f')
      else
        (Int.ofNat ((bs ++ st.buffer.drop bs.length).getD 0 0 % 256),
         setg { st with buffer := bs ++ st.buffer.drop bs.length } 0 0 bytesRead.toNat,
         f')

/-- `std::ios_base::seekdir`. -/
inductive SeekDir where
  | beg
  | cur
  | seekEnd
deriving Repr, DecidableEq

/-- The two `std::ios_base::openmode` bits the adapter inspects. -/
structure OpenMode where
  isIn : Bool
  isOut : Bool
deriving Repr, DecidableEq

/-- `fbuf::seekoff`: move the handle (from start, from the logical
current position — raw position minus buffered-but-unconsumed get-area
bytes — or from the end), then invalidate the get area when the mode
has the `in` bit and reset the put area to empty when it has the `out`
bit; return the handle's resulting position. -/
def seekoff (st : fbuf) (f : PhysFile) (pos : Int) (dir : SeekDir)
    (mode : OpenMode) : Int × fbuf × PhysFile :=
  let f' := match dir with
    | .beg => PHYSFS_seek f pos
    | .cur => PHYSFS_seek f ((PHYSFS_tell f + pos) - (Int.ofNat st.egptr - Int.ofNat st.gptr))
    | .seekEnd => PHYSFS_seek f (PHYSFS_fileLength f + pos)
  let st1 := if mode.isIn then setg st st.egptr st.egptr st.egptr else st
  let st2 := if mode.isOut then setp st1 0 0 else st1
  (PHYSFS_tell f', st2, f')

/-- `fbuf::seekpos`: absolute seek, with the same get/put area resets as
`seekoff`. -/
def seekpos (st : fbuf) (f : PhysFile) (pos : Int)
    (mode : OpenMode) : Int × fbuf × PhysFile :=
  let f' := PHYSFS_seek f pos
  let st1 := if mode.isIn then setg st st.egptr st.egptr st.egptr else st
  let st2 := if mode.isOut then setp st1 0 0 else st1
  (PHYSFS_tell f', st2, f')

/-- `fbuf::flush`: pending count is `pptr - pbase`; zero pending
succeeds trivially without calling the handle; otherwise write the
pending bytes and fail with `-1` exactly when the underlying write
returns fewer bytes than requested.  `flush` is `const`: it leaves the
buffer pointers untouched. -/
def flush (st : fbuf) (f : PhysFile) : Int × PhysFile :=
  if (Int.ofNat st.pptr - Int.ofNat st.pbase) = 0 then (0, f)
  else
    match PHYSFS_writeBytes f ((st.buffer.drop st.pbase).take (st.pptr - st.pbase)) with
    | (written, f') =>
      if written < Int.ofNat st.pptr - Int.ofNat st.pbase then (-1, f') else (0, f')

/-- `fbuf::overflow`: flush the write region (returning end-of-stream on
failure without resetting anything), then reset the put area to the
whole buffer and, when a valid character was supplied, store it as the
first pending byte. -/
def overflow (c : Int) (st : fbuf) (f : PhysFile) : Int × fbuf × PhysFile :=
  match flush st f with
  | (r, f') =>
    if r < 0 then (EOF, st, f')
    else
      let st1 := setp st 0 st.bufferSize
      if c ≠ EOF then
        (c, { st1 with buffer := st1.buffer.set st1.pptr ((c % 256).toNat),
                       pptr := st1.pptr + 1 }, f')
      else (c, st1, f')

/-- `fbuf::sync`: flush, then reset the put pointers; returns the flush
result. -/
def sync (st : fbuf) (f : PhysFile) : Int × fbuf × PhysFile :=
  match flush st f with
  | (r, f') => (r, setp st 0 st.bufferSize, f')

/-- `std::streambuf::sputc` (external standard-library driver of the
adapter): store the character when the put area has room, else call
`overflow`. -/
def sputc (c : Int) (st : fbuf) (f : PhysFile) : Int × fbuf × PhysFile :=
  if st.pptr < st.epptr then
    (c % 256,
     { st with buffer := st.buffer.set st.pptr ((c % 256).toNat), pptr := st.pptr + 1 },
     f)
  else overflow c st f

/-- `std::streambuf::sbumpc` (external standard-library driver): consume
and return the next get-area byte, calling `underflow` (then
consuming the byte it exposes) when the get area is exhausted. -/
def sbumpc (st : fbuf) (f : PhysFile) : Int × fbuf × PhysFile :=
  if st.gptr < st.egptr then
    (Int.ofNat (st.buffer.getD st.gptr 0 % 256), { st with gptr := st.gptr + 1 }, f)
  else
    match underflow st f with
    | (r, st', f') =>
      if r = EOF then (r, st', f')
      else (r, { st' with gptr := st'.gptr + 1 }, f')

/-- Write a whole byte sequence through the adapter with `sputc`. -/
def writeAll (bs : List Nat) (st : fbuf) (f : PhysFile) : fbuf × PhysFile :=
  match bs with
  | [] => (st, f)
  | b :: rest =>
    match sputc (Int.ofNat b) st f with
    | (_, st', f') => writeAll rest st' f'

/-- Read `n` bytes through the adapter with `sbumpc`, collecting the
returned `int_type` values. -/
def readN (n : Nat) (st : fbuf) (f : PhysFile) : List Int × fbuf × PhysFile :=
  match n with
  | 0 => ([], st, f)
  | Nat.succ m =>
    match sbumpc st f with
    | (r, st', f') =>
      match readN m st' f' with
      | (rs, st'', f'') => (r :: rs, st'', f'')

/-- A freshly opened write handle (`PHYSFS_openWrite` truncates). -/
def freshWriteFile : PhysFile := { data := [], pos := 0, failWrites := false }

/-- The `PhysFS::mode` enum. -/
inductive Mode where
  | READ
  | WRITE
  | APPEND
deriving Repr, DecidableEq

/-- Model of the virtual filesystem visible to the open calls: the named
files reachable for reading and a predicate for names the write
directory can create/truncate. -/
structure VFS where
  files : List (String × List Nat)
  canWrite : String → Bool

/-- Contents of a named file, when it exists. -/
def lookupFile (vfs : VFS) (filename : String) : Option (List Nat) :=
  (vfs.files.find? (fun p => p.1 = filename)).map Prod.snd

/-- Model of `PHYSFS_openRead`: a handle on the existing contents, or
null (`none`) when the file does not exist. -/
def PHYSFS_openRead (vfs : VFS) (filename : String) : Option PhysFile :=
  (lookupFile vfs filename).map
    (fun d => { data := d, pos := 0, failWrites := false })

/-- Model of `PHYSFS_openWrite`: truncates to an empty file, or null
when the file cannot be created/truncated. -/
def PHYSFS_openWrite (vfs : VFS) (filename : String) : Option PhysFile :=
  if vfs.canWrite filename then some freshWriteFile else none

/-- Model of `PHYSFS_openAppend`: existing contents (empty when absent)
with the position at the end, or null when writing is impossible. -/
def PHYSFS_openAppend (vfs : VFS) (filename : String) : Option PhysFile :=
  if vfs.canWrite filename then
    some { data := (lookupFile vfs filename).getD []
           pos := ((lookupFile vfs filename).getD []).length
           failWrites := false }
  else none

/-- The underlying open call `openWithMode` dispatches to. -/
def physfsOpen (vfs : VFS) (filename : String) (openMode : Mode) : Option PhysFile :=
  match openMode with
  | .WRITE => PHYSFS_openWrite vfs filename
  | .APPEND => PHYSFS_openAppend vfs filename
  | .READ => PHYSFS_openRead vfs filename

/-- `openWithMode`: dispatch on the mode, then throw
`std::invalid_argument("file not found: " + filename)` when the library
returned a null handle. -/
def openWithMode (vfs : VFS) (filename : String) (openMode : Mode) :
    Except String PhysFile :=
  match physfsOpen vfs filename openMode with
  | none => .error ("file not found: " ++ filename)
  | some f => .ok f

/-- The state of a constructed stream object: the `base_fstream` handle
(`none` once closed), its `fbuf`, and an instrumentation counter of how
many times `PHYSFS_close` has been invoked on the handle. -/
structure FStream where
  file : Option PhysFile
  buf : fbuf
  closeCalls : Nat

/-- `base_fstream::close`: close the handle and null it out only when it
is still non-null; otherwise do nothing. -/
def base_fstream.close (s : FStream) : FStream :=
  match s.file with
  | some _ => { s with file := none, closeCalls := s.closeCalls + 1 }
  | none => s

/-- Stream construction (the `ifstream`/`ofstream`/`fstream` constructor
bodies): `base_fstream(openWithMode(filename, mode))` — which throws on
a null handle — then a fresh `fbuf` on the handle with the default
buffer size 2048. -/
def mkStream (vfs : VFS) (filename : String) (openMode : Mode) :
    Except String FStream :=
  match openWithMode vfs filename openMode with
  | .error e => .error e
  | .ok f => .ok { file := some f, buf := fbufInit 2048, closeCalls := 0 }

/-- `fbuf::~fbuf`: flushes pending writes unconditionally (discarding
the flush result), then frees the buffer. -/
def fbufDtor (st : fbuf) (f : PhysFile) : PhysFile := (flush st f).2

/-- Destruction of a stream object: the derived destructor deletes the
`fbuf` first (running `fbuf::~fbuf`, which flushes), and only then does
`base_fstream::~base_fstream` close the handle; `PHYSFS_close` does not
alter file contents, so the persisted contents are those after the
flush. -/
def streamDtor (st : fbuf) (f : PhysFile) : List Nat := (fbufDtor st f).data

/-- A concrete buffer state used by witnesses: buffer of size 4 holding
`[9, 9, 9, 9]`, get area `[1, 3)`, put area with two pending bytes. -/
def sampleBuf : fbuf :=
  { bufferSize := 4, buffer := [9, 9, 9, 9], eback := 0, gptr := 1, egptr := 3
    pbase := 0, pptr := 2, epptr := 4 }

/-- A concrete handle used by witnesses: six bytes, position 5. -/
def sampleFile : PhysFile := { data := [1, 2, 3, 4, 5, 6], pos := 5, failWrites := false }

/-- Invariant of the write phase on a fresh write stream: the put area
spans the whole buffer from index 0, the pending bytes are
`buffer.take pptr`, and the handle holds exactly the already-flushed
prefix with its position at the end; `w` is the full byte sequence
written so far. -/
structure WriteInv (w : List Nat) (st : fbuf) (f : PhysFile) : Prop where
  pbase0 : st.pbase = 0
  epptr_eq : st.epptr = st.bufferSize
  pptr_le : st.pptr ≤ st.bufferSize
  buflen : st.buffer.length = st.bufferSize
  bpos : 0 < st.bufferSize
  egptr_le : st.egptr ≤ st.bufferSize
  content : f.data ++ st.buffer.take st.pptr = w
  pos_eq : f.pos = f.data.length
  ok : f.failWrites = false

/-- Invariant of the read phase: the handle holds `D`, `c` bytes have
been logically consumed, the unconsumed window `buffer[gptr, egptr)`
mirrors `D[c, pos)`, and the raw position runs ahead of the logical one
by exactly the window size. -/
structure ReadInv (D : List Nat) (c : Nat) (st : fbuf) (f : PhysFile) : Prop where
  data_eq : f.data = D
  g_le : st.gptr ≤ st.egptr
  e_le : st.egptr ≤ st.buffer.length
  buflen : st.buffer.length = st.bufferSize
  bpos : 0 < st.bufferSize
  pos_eq : f.pos = c + (st.egptr - st.gptr)
  pos_le : f.pos ≤ D.length
  window : ∀ i, i < st.egptr - st.gptr →
    st.buffer.getD (st.gptr + i) 0 = D.getD (c + i) 0

/-- The full C1 round-trip scenario: write `S` byte-by-byte through a
fresh adapter over a fresh write handle, flush (`sync`), seek back to
the start, and read `|S|` bytes back through the adapter. -/
def roundTripResult (S : List Nat) (B : Nat) : List Int :=
  match writeAll S (fbufInit B) freshWriteFile with
  | (stw, fw) =>
    match sync stw fw with
    | (_, sts, fs) =>
      match seekoff sts fs 0 SeekDir.beg ⟨true, true⟩ with
      | (_, str, fr) => (readN S.length str fr).1

theorem take_succ_set (l : List Nat) (i : Nat) (a : Nat) (h : i < l.length) :
    (l.set i a).take (i + 1) = l.take i ++ [a] := by
  rw [List.take_succ, List.set_take, List.set_eq_of_length_le
        (by rw [List.length_take]; omega),
      List.getElem?_set_self h]
  rfl

theorem writeAll_cons (b : Nat) (bs : List Nat) (st : fbuf) (f : PhysFile) :
    writeAll (b :: bs) st f
      = writeAll bs (sputc (Int.ofNat b) st f).2.1 (sputc (Int.ofNat b) st f).2.2 := by
  rw [writeAll]

theorem writeInv_init (B : Nat) (hB : 0 < B) :
    WriteInv [] (fbufInit B) freshWriteFile :=
  { pbase0 := rfl
    epptr_eq := rfl
    pptr_le := by simp [fbufInit]
    buflen := by simp [fbufInit]
    bpos := hB
    egptr_le := by simp [fbufInit]
    content := by simp [fbufInit, freshWriteFile]
    pos_eq := rfl
    ok := rfl }

theorem flush_writeInv (w : List Nat) (st : fbuf) (f : PhysFile) (h : WriteInv w st f) :
    flush st f = (0, { data := w, pos := w.length, failWrites := false }) := by
  have hp0 := h.pbase0
  rcases Nat.eq_zero_or_pos st.pptr with hz | hpos
  · have hfl : flush st f = (0, f) := by simp [flush, hp0, hz]
    rw [hfl]
    have hdata : f.data = w := by
      have hc := h.content
      rwa [hz, List.take_zero, List.append_nil] at hc
    have hpos' : f.pos = w.length := by rw [h.pos_eq, hdata]
    have hok := h.ok
    cases f
    simp_all
  · have hbs : (st.buffer.take st.pptr).length = st.pptr := by
      rw [List.length_take]
      have h1 := h.pptr_le
      have h2 := h.buflen
      omega
    have hpre : f.data.take f.pos = f.data := by
      rw [h.pos_eq]
      exact List.take_length f.data
    have hrep : f.pos - f.data.length = 0 := by
      rw [h.pos_eq]
      omega
    have htail : f.data.drop (f.pos + (st.buffer.take st.pptr).length) = [] := by
      apply List.drop_of_length_le
      rw [h.pos_eq]
      omega
    have htail' : f.data.drop (f.pos + st.pptr) = [] := by
      apply List.drop_of_length_le
      rw [h.pos_eq]
      omega
    have hwlen : f.data.length + st.pptr = w.length := by
      have hc := congrArg List.length h.content
      simpa [hbs] using hc
    have hz' : ¬ st.pptr = 0 := by omega
    simp [flush, hp0, PHYSFS_writeBytes, h.ok, hpre, hrep, htail, htail', hbs, hz',
      Prod.ext_iff]
    constructor
    · exact h.content
    · rw [h.pos_eq]
      omega

theorem sputc_writeInv (w : List Nat) (b : Nat) (hb : b < 256) (st : fbuf)
    (f : PhysFile) (h : WriteInv w st f) :
    WriteInv (w ++ [b]) (sputc (Int.ofNat b) st f).2.1 (sputc (Int.ofNat b) st f).2.2 := by
  have hmod : ((Int.ofNat b % 256)).toNat = b := by
    simp only [Int.ofNat_eq_coe]
    omega
  by_cases hlt : st.pptr < st.epptr
  · have hsp : sputc (Int.ofNat b) st f
        = (Int.ofNat b % 256,
           { st with buffer := st.buffer.set st.pptr b, pptr := st.pptr + 1 }, f) := by
      rw [sputc, if_pos hlt, hmod]
    rw [hsp]
    show WriteInv (w ++ [b])
      { st with buffer := st.buffer.set st.pptr b, pptr := st.pptr + 1 } f
    have hplen : st.pptr < st.buffer.length := by
      have h1 := h.buflen
      have h2 := h.epptr_eq
      omega
    refine ⟨h.pbase0, h.epptr_eq, ?_, by simp [h.buflen], h.bpos, h.egptr_le, ?_,
      h.pos_eq, h.ok⟩
    · show st.pptr + 1 ≤ st.bufferSize
      have h2 := h.epptr_eq
      omega
    · show f.data ++ (st.buffer.set st.pptr b).take (st.pptr + 1) = w ++ [b]
      rw [take_succ_set _ _ _ hplen, ← List.append_assoc, h.content]
  · have hpe : st.pptr = st.bufferSize := by
      have h1 := h.pptr_le
      have h2 := h.epptr_eq
      omega
    have hflush := flush_writeInv w st f h
    have hne : ¬ (Int.ofNat b = EOF) := by
      simp only [Int.ofNat_eq_coe, EOF]
      omega
    have hsp : sputc (Int.ofNat b) st f
        = (Int.ofNat b,
           { st with buffer := st.buffer.set 0 b, pbase := 0, pptr := 1,
                     epptr := st.bufferSize },
           { data := w, pos := w.length, failWrites := false }) := by
      rw [sputc, if_neg hlt, overflow, hflush]
      simp only [setp]
      rw [if_neg (by simp : ¬ ((0:Int) < 0)), if_pos hne, hmod]
    rw [hsp]
    show WriteInv (w ++ [b])
      { st with buffer := st.buffer.set 0 b, pbase := 0, pptr := 1,
                epptr := st.bufferSize }
      { data := w, pos := w.length, failWrites := false }
    have h0len : 0 < st.buffer.length := by
      have h1 := h.buflen
      have h2 := h.bpos
      omega
    refine ⟨rfl, rfl, by show 1 ≤ st.bufferSize; have := h.bpos; omega,
      by simp [h.buflen], h.bpos, h.egptr_le, ?_, by simp, rfl⟩
    show ({ data := w, pos := w.length, failWrites := false } : PhysFile).data
        ++ (st.buffer.set 0 b).take 1 = w ++ [b]
    have h01 : (st.buffer.set 0 b).take 1 = st.buffer.take 0 ++ [b] :=
      take_succ_set _ _ _ h0len
    rw [h01]
    simp

theorem writeAll_writeInv (bs : List Nat) (w : List Nat) (st : fbuf) (f : PhysFile)
    (hbs : ∀ b ∈ bs, b < 256) (h : WriteInv w st f) :
    WriteInv (w ++ bs) (writeAll bs st f).1 (writeAll bs st f).2 := by
  induction bs generalizing w st f with
  | nil => simpa [writeAll] using h
  | cons b rest ih =>
    have hstep := sputc_writeInv w b (hbs b (by simp)) st f h
    have hrest := ih (w ++ [b]) (sputc (Int.ofNat b) st f).2.1
      (sputc (Int.ofNat b) st f).2.2 (fun x hx => hbs x (by simp [hx])) hstep
    rw [writeAll_cons]
    simpa using hrest

theorem underflow_eq (st : fbuf) (f : PhysFile)
    (h1 : f.pos < f.data.length) (h2 : 0 < st.bufferSize) :
    underflow st f
      = (Int.ofNat ((((f.data.drop f.pos).take st.bufferSize)
            ++ st.buffer.drop ((f.data.drop f.pos).take st.bufferSize).length).getD 0 0 % 256),
         setg { st with buffer := ((f.data.drop f.pos).take st.bufferSize)
            ++ st.buffer.drop ((f.data.drop f.pos).take st.bufferSize).length } 0 0
           (Int.ofNat ((f.data.drop f.pos).take st.bufferSize).length).toNat,
         { f with pos := f.pos + ((f.data.drop f.pos).take st.bufferSize).length }) := by
  have hbs : ((f.data.drop f.pos).take st.bufferSize).length
      = min st.bufferSize (f.data.length - f.pos) := by
    rw [List.length_take, List.length_drop]
  have hnotlt : ¬ (Int.ofNat ((f.data.drop f.pos).take st.bufferSize).length < 1) := by
    simp only [Int.ofNat_eq_coe, hbs]
    omega
  have heof' : ¬ (PHYSFS_eof f = true) := by
    simp [PHYSFS_eof]
    omega
  simp only [underflow, PHYSFS_readBytes]
  rw [if_neg heof', if_neg hnotlt]

theorem sbumpc_readInv (D : List Nat) (hD : ∀ b ∈ D, b < 256) (c : Nat)
    (st : fbuf) (f : PhysFile) (h : ReadInv D c st f) (hc : c < D.length) :
    (sbumpc st f).1 = Int.ofNat (D.getD c 0)
    ∧ ReadInv D (c + 1) (sbumpc st f).2.1 (sbumpc st f).2.2 := by
  obtain ⟨hdata, hgle, hele, hbuflen, hbpos, hposeq, hposle, hwin⟩ := h
  subst hdata
  have hmem : f.data.getD c 0 ∈ f.data := by
    rw [List.getD_eq_getElem?_getD, List.getElem?_eq_getElem hc]
    exact List.getElem?_mem (List.getElem?_eq_getElem hc)
  have hmod : f.data.getD c 0 % 256 = f.data.getD c 0 :=
    Nat.mod_eq_of_lt (hD _ hmem)
  by_cases hg : st.gptr < st.egptr
  · have hsb : sbumpc st f
        = (Int.ofNat (st.buffer.getD st.gptr 0 % 256),
           { st with gptr := st.gptr + 1 }, f) := by
      rw [sbumpc, if_pos hg]
    have hwin0 := hwin 0 (by omega)
    rw [Nat.add_zero, Nat.add_zero] at hwin0
    rw [hsb]
    constructor
    · show Int.ofNat (st.buffer.getD st.gptr 0 % 256) = Int.ofNat (f.data.getD c 0)
      rw [hwin0, hmod]
    · refine ⟨rfl, ?_, ?_, ?_, hbpos, ?_, hposle, ?_⟩
      · show st.gptr + 1 ≤ st.egptr
        omega
      · show st.egptr ≤ st.buffer.length
        exact hele
      · show st.buffer.length = st.bufferSize
        exact hbuflen
      · show f.pos = c + 1 + (st.egptr - (st.gptr + 1))
        omega
      · intro i hi
        have hi2 : i < st.egptr - (st.gptr + 1) := hi
        show st.buffer.getD (st.gptr + 1 + i) 0 = f.data.getD (c + 1 + i) 0
        have h' := hwin (i + 1) (by omega)
        have e1 : st.gptr + (i + 1) = st.gptr + 1 + i := by omega
        have e2 : c + (i + 1) = c + 1 + i := by omega
        rw [e1, e2] at h'
        exact h'
  · have hge : st.gptr = st.egptr := by omega
    have hposc : f.pos = c := by omega
    have hpd : f.pos < f.data.length := by omega
    have hune := underflow_eq st f hpd hbpos
    have hbs : ((f.data.drop f.pos).take st.bufferSize).length
        = min st.bufferSize (f.data.length - f.pos) := by
      rw [List.length_take, List.length_drop]
    have hn1 : 1 ≤ ((f.data.drop f.pos).take st.bufferSize).length := by
      rw [hbs]
      omega
    have hbsle : ((f.data.drop f.pos).take st.bufferSize).length
        ≤ st.buffer.length := by
      rw [hbs, hbuflen]
      omega
    have hne : ¬ (Int.ofNat ((((f.data.drop f.pos).take st.bufferSize)
          ++ st.buffer.drop ((f.data.drop f.pos).take st.bufferSize).length).getD 0 0 % 256)
        = EOF) := by
      simp only [Int.ofNat_eq_coe, EOF]
      omega
    have hsb : sbumpc st f
        = (Int.ofNat ((((f.data.drop f.pos).take st.bufferSize)
              ++ st.buffer.drop ((f.data.drop f.pos).take st.bufferSize).length).getD 0 0 % 256),
           { st with
              buffer := (((f.data.drop f.pos).take st.bufferSize)
                  ++ st.buffer.drop ((f.data.drop f.pos).take st.bufferSize).length),
              eback := 0, gptr := 1,
              egptr := (Int.ofNat ((f.data.drop f.pos).take st.bufferSize).length).toNat },
           { f with pos := f.pos + ((f.data.drop f.pos).take st.bufferSize).length }) := by
      rw [sbumpc, if_neg hg, hune]
      rfl
    have hhead : (((f.data.drop f.pos).take st.bufferSize)
        ++ st.buffer.drop ((f.data.drop f.pos).take st.bufferSize).length).getD 0 0
        = f.data.getD f.pos 0 := by
      rw [List.getD_eq_getElem?_getD, List.getElem?_append_left (by omega),
          List.getElem?_take_of_lt (by omega), List.getElem?_drop,
          Nat.add_zero, ← List.getD_eq_getElem?_getD]
    have hton : (Int.ofNat ((f.data.drop f.pos).take st.bufferSize).length).toNat
        = ((f.data.drop f.pos).take st.bufferSize).length := Int.toNat_ofNat _
    have hblen2 : (((f.data.drop f.pos).take st.bufferSize)
        ++ st.buffer.drop ((f.data.drop f.pos).take st.bufferSize).length).length
        = st.buffer.length := by
      rw [List.length_append, List.length_drop]
      omega
    rw [hsb]
    constructor
    · show Int.ofNat ((((f.data.drop f.pos).take st.bufferSize)
            ++ st.buffer.drop ((f.data.drop f.pos).take st.bufferSize).length).getD 0 0 % 256)
        = Int.ofNat (f.data.getD c 0)
      rw [hhead, hposc, hmod]
    · refine ⟨rfl, ?_, ?_, ?_, hbpos, ?_, ?_, ?_⟩
      · show 1 ≤ (Int.ofNat ((f.data.drop f.pos).take st.bufferSize).length).toNat
        rw [hton]
        exact hn1
      · show (Int.ofNat ((f.data.drop f.pos).take st.bufferSize).length).toNat
          ≤ (((f.data.drop f.pos).take st.bufferSize)
              ++ st.buffer.drop ((f.data.drop f.pos).take st.bufferSize).length).length
        rw [hton, hblen2]
        exact hbsle
      · show (((f.data.drop f.pos).take st.bufferSize)
            ++ st.buffer.drop ((f.data.drop f.pos).take st.bufferSize).length).length
          = st.bufferSize
        rw [hblen2]
        exact hbuflen
      · show f.pos + ((f.data.drop f.pos).take st.bufferSize).length
          = c + 1 + ((Int.ofNat ((f.data.drop f.pos).take st.bufferSize).length).toNat - 1)
        rw [hton]
        omega
      · show f.pos + ((f.data.drop f.pos).take st.bufferSize).length ≤ f.data.length
        rw [hbs]
        omega
      · intro i hi
        have hi2 : i < (Int.ofNat ((f.data.drop f.pos).take st.bufferSize).length).toNat - 1 := hi
        rw [hton] at hi2
        show (((f.data.drop f.pos).take st.bufferSize)
            ++ st.buffer.drop ((f.data.drop f.pos).take st.bufferSize).length).getD (1 + i) 0
          = f.data.getD (c + 1 + i) 0
        have hiB : 1 + i < st.bufferSize := by
          have := hbs
          omega
        rw [List.getD_eq_getElem?_getD, List.getElem?_append_left (by omega),
            List.getElem?_take_of_lt hiB, List.getElem?_drop,
            ← List.getD_eq_getElem?_getD]
        have e3 : f.pos + (1 + i) = c + 1 + i := by omega
        rw [e3]

theorem readN_cons (n : Nat) (st : fbuf) (f : PhysFile) :
    readN (n + 1) st f
      = ((sbumpc st f).1 :: (readN n (sbumpc st f).2.1 (sbumpc st f).2.2).1,
         (readN n (sbumpc st f).2.1 (sbumpc st f).2.2).2.1,
         (readN n (sbumpc st f).2.1 (sbumpc st f).2.2).2.2) := by
  rw [readN]

theorem readN_readInv (D : List Nat) (hD : ∀ b ∈ D, b < 256) (n c : Nat)
    (st : fbuf) (f : PhysFile) (h : ReadInv D c st f) (hn : c + n ≤ D.length) :
    (readN n st f).1 = ((D.drop c).take n).map Int.ofNat := by
  induction n generalizing c st f with
  | zero => simp [readN]
  | succ m ih =>
    have hc : c < D.length := by omega
    have hstep := sbumpc_readInv D hD c st f h hc
    have hrest := ih (c + 1) (sbumpc st f).2.1 (sbumpc st f).2.2 hstep.2 (by omega)
    rw [readN_cons]
    show (sbumpc st f).1 :: (readN m (sbumpc st f).2.1 (sbumpc st f).2.2).1
      = ((D.drop c).take (m + 1)).map Int.ofNat
    rw [hstep.1, hrest, List.drop_eq_getElem_cons hc, List.take_succ_cons,
        List.map_cons, List.getD_eq_getElem?_getD, List.getElem?_eq_getElem hc]
    rfl

theorem sync_eq (st : fbuf) (f : PhysFile) :
    sync st f = ((flush st f).1, setp st 0 st.bufferSize, (flush st f).2) := by
  rw [sync]

theorem seekoff_beg_eq (st : fbuf) (g : PhysFile) :
    seekoff st g 0 SeekDir.beg ⟨true, true⟩
      = (0, setp (setg st st.egptr st.egptr st.egptr) 0 0,
         { g with pos := 0 }) := by
  rfl

/-- C4: a from-current seek with requested offset `k` sets the handle's
absolute position to (raw handle position + k) − n, where n is the
number of buffered-but-unconsumed read-region bytes (`egptr - gptr`),
and returns that position; with k = 0 this is the logical position,
excluding the buffered-but-unconsumed bytes. -/
theorem seekoff_cur_logical (st : fbuf) (f : PhysFile) (k : Int) (mode : OpenMode)
    (hg : st.gptr ≤ st.egptr)
    (hres : 0 ≤ Int.ofNat f.pos + k - Int.ofNat (st.egptr - st.gptr)) :
    (seekoff st f k SeekDir.cur mode).2.2.pos
        = (Int.ofNat f.pos + k - Int.ofNat (st.egptr - st.gptr)).toNat
    ∧ (seekoff st f k SeekDir.cur mode).1
        = Int.ofNat f.pos + k - Int.ofNat (st.egptr - st.gptr) := by
  refine ⟨?_, ?_⟩ <;>
  · simp [seekoff, PHYSFS_seek, PHYSFS_tell] at hres ⊢
    omega

/-- C4 witness: seeking from-current by 0 with two unconsumed buffered
bytes at raw position 5 lands at (and returns) logical position 3. -/
theorem seekoff_cur_logical_witness :
    sampleBuf.gptr ≤ sampleBuf.egptr
    ∧ 0 ≤ Int.ofNat sampleFile.pos + 0 - Int.ofNat (sampleBuf.egptr - sampleBuf.gptr)
    ∧ ((seekoff sampleBuf sampleFile 0 SeekDir.cur ⟨true, false⟩).2.2.pos
        = (Int.ofNat sampleFile.pos + 0 - Int.ofNat (sampleBuf.egptr - sampleBuf.gptr)).toNat
      ∧ (seekoff sampleBuf sampleFile 0 SeekDir.cur ⟨true, false⟩).1
        = Int.ofNat sampleFile.pos + 0 - Int.ofNat (sampleBuf.egptr - sampleBuf.gptr)) :=
  ⟨by decide, by decide,
   seekoff_cur_logical sampleBuf sampleFile 0 ⟨true, false⟩ (by decide) (by decide)⟩

/-- C7: any seek whose mode has the `out` bit resets the write region to
empty without flushing: afterwards `pptr = pbase`, and the file's
contents are unchanged, so pending bytes are discarded, never written. -/
theorem seek_discards_pending_writes (st : fbuf) (f : PhysFile) (p : Int)
    (dir : SeekDir) (mode : OpenMode)
    (hpend : st.pbase < st.pptr) (hout : mode.isOut = true) :
    ((seekoff st f p dir mode).2.1.pptr = (seekoff st f p dir mode).2.1.pbase
      ∧ (seekoff st f p dir mode).2.2.data = f.data)
    ∧ ((seekpos st f p mode).2.1.pptr = (seekpos st f p mode).2.1.pbase
      ∧ (seekpos st f p mode).2.2.data = f.data) := by
  cases dir <;> cases h : mode.isIn <;>
    simp [seekoff, seekpos, setp, setg, PHYSFS_seek, PHYSFS_tell,
      PHYSFS_fileLength, hout, h]

/-- C7 witness: a seek-for-write from a state with two pending bytes
leaves the write region empty and the file contents untouched. -/
theorem seek_discards_pending_writes_witness :
    sampleBuf.pbase < sampleBuf.pptr
    ∧ (OpenMode.mk false true).isOut = true
    ∧ (((seekoff sampleBuf sampleFile 1 SeekDir.beg ⟨false, true⟩).2.1.pptr
          = (seekoff sampleBuf sampleFile 1 SeekDir.beg ⟨false, true⟩).2.1.pbase
        ∧ (seekoff sampleBuf sampleFile 1 SeekDir.beg ⟨false, true⟩).2.2.data
          = sampleFile.data)
      ∧ ((seekpos sampleBuf sampleFile 1 ⟨false, true⟩).2.1.pptr
          = (seekpos sampleBuf sampleFile 1 ⟨false, true⟩).2.1.pbase
        ∧ (seekpos sampleBuf sampleFile 1 ⟨false, true⟩).2.2.data
          = sampleFile.data)) :=
  ⟨by decide, by decide,
   seek_discards_pending_writes sampleBuf sampleFile 1 SeekDir.beg ⟨false, true⟩
     (by decide) (by decide)⟩

/-- C8: any seek (by offset or absolute) whose mode has the `in` bit
leaves the read region empty: afterwards `gptr = egptr`, so the next
read must refill from the handle. -/
theorem seek_invalidates_read_region (st : fbuf) (f : PhysFile) (p : Int)
    (dir : SeekDir) (mode : OpenMode) (hin : mode.isIn = true) :
    (seekoff st f p dir mode).2.1.gptr = (seekoff st f p dir mode).2.1.egptr
    ∧ (seekpos st f p mode).2.1.gptr = (seekpos st f p mode).2.1.egptr := by
  cases dir <;> cases h : mode.isOut <;>
    simp [seekoff, seekpos, setp, setg, PHYSFS_seek, PHYSFS_tell,
      PHYSFS_fileLength, hin, h]

/-- C8 witness: an in-mode seek from a state with a live get area leaves
the read region empty for both seek entry points. -/
theorem seek_invalidates_read_region_witness :
    (OpenMode.mk true false).isIn = true
    ∧ ((seekoff sampleBuf sampleFile 2 SeekDir.cur ⟨true, false⟩).2.1.gptr
        = (seekoff sampleBuf sampleFile 2 SeekDir.cur ⟨true, false⟩).2.1.egptr
      ∧ (seekpos sampleBuf sampleFile 2 ⟨true, false⟩).2.1.gptr
        = (seekpos sampleBuf sampleFile 2 ⟨true, false⟩).2.1.egptr) :=
  ⟨by decide,
   seek_invalidates_read_region sampleBuf sampleFile 2 SeekDir.cur ⟨true, false⟩
     (by decide)⟩

/-- C9: with the read region exhausted and the handle at or past
end-of-file, a read returns the end-of-stream marker, leaves the
adapter and handle unchanged, and a repeated read returns end-of-stream
again on the identical state. -/
theorem eof_read_clean_idempotent (st : fbuf) (f : PhysFile)
    (hg : st.egptr ≤ st.gptr) (heof : f.data.length ≤ f.pos) :
    sbumpc st f = (EOF, st, f)
    ∧ sbumpc (sbumpc st f).2.1 (sbumpc st f).2.2 = (EOF, st, f) := by
  have hlt : ¬ st.gptr < st.egptr := by omega
  have h1 : sbumpc st f = (EOF, st, f) := by
    simp [sbumpc, underflow, PHYSFS_eof, hlt, heof]
  refine ⟨h1, ?_⟩
  rw [h1]
  exact h1

/-- C9 witness: reading at end-of-file (position = length = 6, get area
exhausted) yields the end-of-stream marker with the state unchanged,
twice. -/
theorem eof_read_clean_idempotent_witness :
    (setg sampleBuf 3 3 3).egptr ≤ (setg sampleBuf 3 3 3).gptr
    ∧ sampleFile.data.length ≤ (PHYSFS_seek sampleFile 6).pos
    ∧ (sbumpc (setg sampleBuf 3 3 3) (PHYSFS_seek sampleFile 6)
        = (EOF, setg sampleBuf 3 3 3, PHYSFS_seek sampleFile 6)
      ∧ sbumpc (sbumpc (setg sampleBuf 3 3 3) (PHYSFS_seek sampleFile 6)).2.1
          (sbumpc (setg sampleBuf 3 3 3) (PHYSFS_seek sampleFile 6)).2.2
        = (EOF, setg sampleBuf 3 3 3, PHYSFS_seek sampleFile 6)) :=
  ⟨by decide, by decide,
   eof_read_clean_idempotent (setg sampleBuf 3 3 3) (PHYSFS_seek sampleFile 6)
     (by decide) (by decide)⟩

/-- C10: `base_fstream::close` is idempotent — after the first close the
stored handle is null, composing close with close equals close, the
second close performs no additional underlying `PHYSFS_close` call, and
close on an already-closed stream changes nothing. -/
theorem close_idempotent (s : FStream) :
    base_fstream.close (base_fstream.close s) = base_fstream.close s
    ∧ (base_fstream.close s).file = none
    ∧ (base_fstream.close (base_fstream.close s)).closeCalls
        = (base_fstream.close s).closeCalls
    ∧ (s.file = none → base_fstream.close s = s) := by
  cases h : s.file <;> simp [base_fstream.close, h]

/-- C6: when the underlying library open returns a null handle, stream
construction fails with the error `"file not found: " ++ filename`, and
no constructed stream object results. -/
theorem open_failure_no_stream (vfs : VFS) (filename : String) (m : Mode)
    (hfail : physfsOpen vfs filename m = none) :
    mkStream vfs filename m = Except.error ("file not found: " ++ filename)
    ∧ ∀ s, mkStream vfs filename m ≠ Except.ok s := by
  unfold mkStream openWithMode
  rw [hfail]
  simp

/-- C3: flush computes the pending count as write cursor minus write
region start; zero pending succeeds with 0 and leaves the handle
untouched; otherwise it fails with −1 exactly when the underlying write
returned fewer bytes than requested, and on success writes exactly the
pending bytes at the current handle position, advancing it by the
pending count. -/
theorem flush_contract (st : fbuf) (f : PhysFile)
    (hp : st.pbase ≤ st.pptr) (hbuf : st.pptr ≤ st.buffer.length)
    (hpos : f.pos ≤ f.data.length) :
    (st.pptr = st.pbase → flush st f = (0, f))
    ∧ (st.pbase < st.pptr →
        (((flush st f).1 = -1) ↔
          (PHYSFS_writeBytes f ((st.buffer.drop st.pbase).take (st.pptr - st.pbase))).1
            < Int.ofNat (st.pptr - st.pbase))
        ∧ (f.failWrites = true → flush st f = (-1, f))
        ∧ (f.failWrites = false →
            flush st f = (0, { f with
              data := f.data.take f.pos
                        ++ (st.buffer.drop st.pbase).take (st.pptr - st.pbase)
                        ++ f.data.drop (f.pos + (st.pptr - st.pbase)),
              pos := f.pos + (st.pptr - st.pbase) }))) := by
  have hlen : ((st.buffer.drop st.pbase).take (st.pptr - st.pbase)).length
      = st.pptr - st.pbase := by
    simp [List.length_take, List.length_drop]
    omega
  refine ⟨fun h => by simp [flush, h], fun hlt => ?_⟩
  have hne : ¬ ((st.pptr : Int) - (st.pbase : Int) = 0) := by omega
  have h0 : (0:Int) < (st.pptr : Int) - (st.pbase : Int) := by omega
  have h0' : (0:Int) < ((st.pptr - st.pbase : Nat) : Int) := by omega
  rcases Bool.eq_false_or_eq_true f.failWrites with hw | hw
  · have hwb : PHYSFS_writeBytes f ((st.buffer.drop st.pbase).take (st.pptr - st.pbase))
        = (0, f) := by
      simp [PHYSFS_writeBytes, hw]
    have hflush : flush st f = (-1, f) := by
      simp [flush, PHYSFS_writeBytes, hw, hne, hlt]
    refine ⟨?_, fun _ => hflush, ?_⟩
    · rw [hflush, hwb]
      simp [h0']
    · intro hc
      rw [hw] at hc
      exact Bool.noConfusion hc
  · have hnotlt : ¬ (((st.pptr - st.pbase : Nat) : Int)
        < (st.pptr : Int) - (st.pbase : Int)) := by omega
    have hrep : f.pos - f.data.length = 0 := by omega
    have hwb1 : (PHYSFS_writeBytes f
        ((st.buffer.drop st.pbase).take (st.pptr - st.pbase))).1
        = Int.ofNat ((st.buffer.drop st.pbase).take (st.pptr - st.pbase)).length := by
      simp [PHYSFS_writeBytes, hw]
    have hflush : flush st f = (0, { f with
        data := f.data.take f.pos
                  ++ (st.buffer.drop st.pbase).take (st.pptr - st.pbase)
                  ++ f.data.drop (f.pos + (st.pptr - st.pbase)),
        pos := f.pos + (st.pptr - st.pbase) }) := by
      simp [flush, PHYSFS_writeBytes, hw, hne, hnotlt, hrep, hlen]
    refine ⟨?_, ?_, fun _ => hflush⟩
    · rw [hflush, hwb1, hlen]
      simp
    · intro hc
      rw [hw] at hc
      exact Bool.noConfusion hc

/-- C3 witness: a two-byte pending region on a healthy handle flushes
with success 0, splicing the bytes in at position 5, and the failure
signal agrees with the underlying write result. -/
theorem flush_contract_witness :
    sampleBuf.pbase ≤ sampleBuf.pptr
    ∧ sampleBuf.pptr ≤ sampleBuf.buffer.length
    ∧ sampleFile.pos ≤ sampleFile.data.length
    ∧ ((sampleBuf.pptr = sampleBuf.pbase → flush sampleBuf sampleFile = (0, sampleFile))
      ∧ (sampleBuf.pbase < sampleBuf.pptr →
          (((flush sampleBuf sampleFile).1 = -1) ↔
            (PHYSFS_writeBytes sampleFile
              ((sampleBuf.buffer.drop sampleBuf.pbase).take
                (sampleBuf.pptr - sampleBuf.pbase))).1
              < Int.ofNat (sampleBuf.pptr - sampleBuf.pbase))
          ∧ (sampleFile.failWrites = true → flush sampleBuf sampleFile = (-1, sampleFile))
          ∧ (sampleFile.failWrites = false →
              flush sampleBuf sampleFile = (0, { sampleFile with
                data := sampleFile.data.take sampleFile.pos
                          ++ (sampleBuf.buffer.drop sampleBuf.pbase).take
                              (sampleBuf.pptr - sampleBuf.pbase)
                          ++ sampleFile.data.drop
                              (sampleFile.pos + (sampleBuf.pptr - sampleBuf.pbase)),
                pos := sampleFile.pos + (sampleBuf.pptr - sampleBuf.pbase) })))) :=
  ⟨by decide, by decide, by decide,
   flush_contract sampleBuf sampleFile (by decide) (by decide) (by decide)⟩

/-- C2: with the read region exhausted, `underflow` returns the
end-of-stream marker untouched at end-of-file; when not at end-of-file
it reads up to `bufferSize` bytes at the handle position — end-of-stream
when fewer than one byte arrives — and otherwise exposes the window
`[0, bytesRead)` with `bytesRead = min bufferSize remaining` (a short
read is a valid smaller window), returns the first byte unconsumed
(`gptr = 0`), advances the handle by `bytesRead`, and fills the window
with the file's bytes from the old position. -/
theorem underflow_contract (st : fbuf) (f : PhysFile)
    (hx : st.egptr ≤ st.gptr) (hlen : st.buffer.length = st.bufferSize) :
    (f.data.length ≤ f.pos → underflow st f = (EOF, st, f))
    ∧ (f.pos < f.data.length → st.bufferSize = 0 → underflow st f = (EOF, st, f))
    ∧ (f.pos < f.data.length → 0 < st.bufferSize →
        (underflow st f).1 = Int.ofNat (f.data.getD f.pos 0 % 256)
        ∧ (underflow st f).2.1.gptr = 0
        ∧ (underflow st f).2.1.egptr = min st.bufferSize (f.data.length - f.pos)
        ∧ (underflow st f).2.2.pos = f.pos + min st.bufferSize (f.data.length - f.pos)
        ∧ (underflow st f).2.2.data = f.data
        ∧ ∀ i < min st.bufferSize (f.data.length - f.pos),
            (underflow st f).2.1.buffer.getD i 0 = f.data.getD (f.pos + i) 0) := by
  refine ⟨fun h => by simp [underflow, PHYSFS_eof, h], fun h1 h2 => ?_, fun h1 h2 => ?_⟩
  · have hne : ¬ f.data.length ≤ f.pos := by omega
    simp [underflow, PHYSFS_eof, PHYSFS_readBytes, hne, h2]
  · have hne : ¬ f.data.length ≤ f.pos := by omega
    have hbs : ((f.data.drop f.pos).take st.bufferSize).length
        = min st.bufferSize (f.data.length - f.pos) := by
      rw [List.length_take, List.length_drop]
    have hn1 : 1 ≤ min st.bufferSize (f.data.length - f.pos) := by omega
    have hnotlt : ¬ (Int.ofNat ((f.data.drop f.pos).take st.bufferSize).length
        < 1) := by
      simp only [Int.ofNat_eq_coe, hbs]
      omega
    have heof' : ¬ (PHYSFS_eof f = true) := by
      simp [PHYSFS_eof]
      omega
    have hu : underflow st f
        = (Int.ofNat ((((f.data.drop f.pos).take st.bufferSize)
              ++ st.buffer.drop ((f.data.drop f.pos).take st.bufferSize).length).getD 0 0 % 256),
           setg { st with buffer := ((f.data.drop f.pos).take st.bufferSize)
              ++ st.buffer.drop ((f.data.drop f.pos).take st.bufferSize).length } 0 0
             (Int.ofNat ((f.data.drop f.pos).take st.bufferSize).length).toNat,
           { f with pos := f.pos + ((f.data.drop f.pos).take st.bufferSize).length }) := by
      simp only [underflow, PHYSFS_readBytes]
      rw [if_neg heof', if_neg hnotlt]
    have hhead : (((f.data.drop f.pos).take st.bufferSize)
        ++ st.buffer.drop ((f.data.drop f.pos).take st.bufferSize).length).getD 0 0
        = f.data.getD f.pos 0 := by
      rw [List.getD_eq_getElem?_getD, List.getElem?_append_left (by rw [hbs]; omega),
          List.getElem?_take_of_lt (by omega), List.getElem?_drop,
          Nat.add_zero, ← List.getD_eq_getElem?_getD]
    refine ⟨?_, ?_, ?_, ?_, ?_, ?_⟩
    · rw [hu]
      exact congrArg (fun n => Int.ofNat (n % 256)) hhead
    · rw [hu]
      rfl
    · rw [hu]
      show (Int.ofNat ((f.data.drop f.pos).take st.bufferSize).length).toNat
        = min st.bufferSize (f.data.length - f.pos)
      rw [hbs]
      exact Int.toNat_ofNat _
    · rw [hu]
      show f.pos + ((f.data.drop f.pos).take st.bufferSize).length
        = f.pos + min st.bufferSize (f.data.length - f.pos)
      rw [hbs]
    · rw [hu]
    · intro i hi
      rw [hu]
      show (((f.data.drop f.pos).take st.bufferSize)
          ++ st.buffer.drop ((f.data.drop f.pos).take st.bufferSize).length).getD i 0
        = f.data.getD (f.pos + i) 0
      rw [List.getD_eq_getElem?_getD, List.getElem?_append_left (by rw [hbs]; omega),
          List.getElem?_take_of_lt (by omega), List.getElem?_drop,
          ← List.getD_eq_getElem?_getD]

/-- C2 witness: with buffer size 4 at position 5 of a six-byte file, a
short read of one byte forms the window [0, 1), returns byte 6
unconsumed, and advances the handle to 6. -/
theorem underflow_contract_witness :
    (setg sampleBuf 3 3 3).egptr ≤ (setg sampleBuf 3 3 3).gptr
    ∧ (setg sampleBuf 3 3 3).buffer.length = (setg sampleBuf 3 3 3).bufferSize
    ∧ ((sampleFile.data.length ≤ sampleFile.pos →
          underflow (setg sampleBuf 3 3 3) sampleFile = (EOF, setg sampleBuf 3 3 3, sampleFile))
      ∧ (sampleFile.pos < sampleFile.data.length → (setg sampleBuf 3 3 3).bufferSize = 0 →
          underflow (setg sampleBuf 3 3 3) sampleFile = (EOF, setg sampleBuf 3 3 3, sampleFile))
      ∧ (sampleFile.pos < sampleFile.data.length → 0 < (setg sampleBuf 3 3 3).bufferSize →
          (underflow (setg sampleBuf 3 3 3) sampleFile).1
            = Int.ofNat (sampleFile.data.getD sampleFile.pos 0 % 256)
          ∧ (underflow (setg sampleBuf 3 3 3) sampleFile).2.1.gptr = 0
          ∧ (underflow (setg sampleBuf 3 3 3) sampleFile).2.1.egptr
            = min (setg sampleBuf 3 3 3).bufferSize
                (sampleFile.data.length - sampleFile.pos)
          ∧ (underflow (setg sampleBuf 3 3 3) sampleFile).2.2.pos
            = sampleFile.pos + min (setg sampleBuf 3 3 3).bufferSize
                (sampleFile.data.length - sampleFile.pos)
          ∧ (underflow (setg sampleBuf 3 3 3) sampleFile).2.2.data = sampleFile.data
          ∧ ∀ i < min (setg sampleBuf 3 3 3).bufferSize
                (sampleFile.data.length - sampleFile.pos),
              (underflow (setg sampleBuf 3 3 3) sampleFile).2.1.buffer.getD i 0
                = sampleFile.data.getD (sampleFile.pos + i) 0)) :=
  ⟨by decide, by decide,
   underflow_contract (setg sampleBuf 3 3 3) sampleFile (by decide) (by decide)⟩

/-- C1: round-trip — for every byte sequence S written through a fresh
write adapter (with its writes flushed via `sync`), seeking back to the
start of the file and reading |S| bytes through the adapter yields
exactly S. -/
theorem round_trip (S : List Nat) (hS : ∀ b ∈ S, b < 256) (B : Nat) (hB : 0 < B) :
    roundTripResult S B = S.map Int.ofNat := by
  have hW := writeAll_writeInv S [] (fbufInit B) freshWriteFile hS (writeInv_init B hB)
  rw [List.nil_append] at hW
  rcases hw12 : writeAll S (fbufInit B) freshWriteFile with ⟨w1, w2⟩
  rw [hw12] at hW
  replace hW : WriteInv S w1 w2 := hW
  have hflushW := flush_writeInv S _ _ hW
  rw [roundTripResult, hw12]
  show (readN S.length
      (seekoff (sync w1 w2).2.1 (sync w1 w2).2.2 0 SeekDir.beg ⟨true, true⟩).2.1
      (seekoff (sync w1 w2).2.1 (sync w1 w2).2.2 0 SeekDir.beg ⟨true, true⟩).2.2).1
    = S.map Int.ofNat
  rw [sync_eq, hflushW, seekoff_beg_eq]
  show (readN S.length
      (setp (setg (setp w1 0 w1.bufferSize) w1.egptr w1.egptr w1.egptr) 0 0)
      { data := S, pos := 0, failWrites := false }).1 = S.map Int.ofNat
  have hR : ReadInv S 0
      (setp (setg (setp w1 0 w1.bufferSize) w1.egptr w1.egptr w1.egptr) 0 0)
      { data := S, pos := 0, failWrites := false } := by
    refine ⟨rfl, Nat.le_refl _, ?_, ?_, hW.bpos, ?_, Nat.zero_le _, ?_⟩
    · show w1.egptr ≤ w1.buffer.length
      rw [hW.buflen]
      exact hW.egptr_le
    · show w1.buffer.length = w1.bufferSize
      exact hW.buflen
    · show (0:Nat) = 0 + (w1.egptr - w1.egptr)
      omega
    · intro i hi
      have hi2 : i < w1.egptr - w1.egptr := hi
      exact absurd hi2 (by omega)
  have hfin := readN_readInv S hS S.length 0 _ _ hR (by omega)
  rw [hfin, List.drop_zero, List.take_length]

/-- C1 witness: the three bytes 104, 105, 106 written through a
two-byte buffer (forcing an intermediate flush), synced, and read back
after a seek to the start come back exactly. -/
theorem round_trip_witness :
    (∀ b ∈ [104, 105, 106], b < 256) ∧ 0 < 2
    ∧ roundTripResult [104, 105, 106] 2 = [104, 105, 106].map Int.ofNat :=
  ⟨by decide, by decide, round_trip [104, 105, 106] (by decide) 2 (by decide)⟩

/-- C5: destroying a stream with pending unflushed bytes persists every
written byte — the `fbuf` destructor flushes unconditionally before the
`base_fstream` destructor closes the handle (that ordering is encoded in
`streamDtor`), so the persisted contents are exactly S even without an
explicit flush. -/
theorem dtor_persists_writes (S : List Nat) (hS : ∀ b ∈ S, b < 256)
    (B : Nat) (hB : 0 < B) :
    streamDtor (writeAll S (fbufInit B) freshWriteFile).1
      (writeAll S (fbufInit B) freshWriteFile).2 = S := by
  have hW := writeAll_writeInv S [] (fbufInit B) freshWriteFile hS (writeInv_init B hB)
  rw [List.nil_append] at hW
  have hflushW := flush_writeInv S _ _ hW
  rw [streamDtor, fbufDtor, hflushW]

/-- C5 witness: two bytes written into a four-byte buffer (fewer than
the buffer size, never flushed) are still persisted by destruction. -/
theorem dtor_persists_writes_witness :
    (∀ b ∈ [7, 8], b < 256) ∧ 0 < 4
    ∧ streamDtor (writeAll [7, 8] (fbufInit 4) freshWriteFile).1
        (writeAll [7, 8] (fbufInit 4) freshWriteFile).2 = [7, 8] :=
  ⟨by decide, by decide, dtor_persists_writes [7, 8] (by decide) 4 (by decide)⟩

/-- C6 witness: opening a missing file for reading in an empty
filesystem fails with an error naming the file, producing no stream. -/
theorem open_failure_no_stream_witness :
    physfsOpen ⟨[], fun _ => false⟩ "missing.txt" Mode.READ = none
    ∧ (mkStream ⟨[], fun _ => false⟩ "missing.txt" Mode.READ
        = Except.error ("file not found: " ++ "missing.txt")
      ∧ ∀ s, mkStream ⟨[], fun _ => false⟩ "missing.txt" Mode.READ ≠ Except.ok s) :=
  ⟨rfl, open_failure_no_stream ⟨[], fun _ => false⟩ "missing.txt" Mode.READ rfl⟩

end PhysFSpp
